import Mathlib

/-!
Shallow embedding of the MCA result-processing pipeline (src/app.py).

The source is a pandas batch transform: per-subject mark columns are
coerced to numbers, mapped to grades and grade points, combined into a
credit-weighted SGPA, a pass/fail result, a dense rank, and two sorted
leaderboard views.  Marks are modelled as rationals; Python's
round(x, 2) on floats is modelled as exact round-half-to-even at two
decimals, which is faithful here because every SGPA value is an integer
divided by 24, whose exact half cases (numerator congruent to 3 mod 6
after scaling) are dyadic rationals represented exactly by the float,
and all other cases sit at distance at least 1/600 from a rounding
boundary, far beyond double-precision error.
-/

/-- The 11 fixed subject columns (src/app.py, subject_cols). -/
def subject_cols : List ℕ := [101, 103, 105, 107, 109, 161, 163, 165, 167, 169, 171]

/-- The CREDITS dictionary (src/app.py, CREDITS).  Keys outside the fixed
subject set are never looked up by the pipeline; they map to 0 here. -/
def CREDITS : ℕ → ℕ
  | 101 => 4
  | 103 => 3
  | 105 => 3
  | 107 => 3
  | 109 => 3
  | 161 => 1
  | 163 => 1
  | 165 => 1
  | 167 => 1
  | 169 => 3
  | 171 => 1
  | _ => 0

/-- A raw spreadsheet cell for a subject mark: a numeric value, a
non-numeric text marker (such as an absence marker), or a missing cell.
Raw text that parses as a number is represented by the `num`
constructor, matching what pandas `to_numeric` produces for it. -/
inductive RawMark where
  | num (q : ℚ)
  | text (s : String)
  | missing
deriving DecidableEq

/-- Models `pd.to_numeric(col, errors="coerce")` on one cell
(src/app.py line 68): numeric values pass through, non-numeric text and
missing cells become NaN, modelled as `none`. -/
def to_numeric_coerce : RawMark → Option ℚ
  | .num q => some q
  | .text _ => none
  | .missing => none

/-- Models `.fillna(0)` on one cell (src/app.py line 68). -/
def fillna0 : Option ℚ → ℚ
  | some q => q
  | none => 0

/-- The per-cell mark normalization `pd.to_numeric(df[col],
errors="coerce").fillna(0)` (src/app.py lines 67-68). -/
def normalizeCell (r : RawMark) : ℚ := fillna0 (to_numeric_coerce r)

/-- The grade table (src/app.py, grade_and_point): a descending
first-match if-chain from marks to a (grade, grade point) pair. -/
def grade_and_point (marks : ℚ) : String × ℕ :=
  if marks ≥ 90 then ("O", 10)
  else if marks ≥ 75 then ("A+", 9)
  else if marks ≥ 65 then ("A", 8)
  else if marks ≥ 55 then ("B+", 7)
  else if marks ≥ 50 then ("B", 6)
  else if marks ≥ 45 then ("C", 5)
  else if marks ≥ 40 then ("P", 4)
  else ("F", 0)

/-- The `{col}_GP` column entry for one mark (src/app.py line 98). -/
def gpOf (m : ℚ) : ℕ := (grade_and_point m).2

/-- The `{col}_Grade` column entry for one mark (src/app.py line 97). -/
def gradeOf (m : ℚ) : String := (grade_and_point m).1

/-- Round-half-to-even to an integer, the tie-breaking rule of Python's
round builtin. -/
def roundHalfEvenInt (q : ℚ) : ℤ :=
  if q - (⌊q⌋ : ℚ) < 1/2 then ⌊q⌋
  else if (1:ℚ)/2 < q - (⌊q⌋ : ℚ) then ⌊q⌋ + 1
  else if 2 ∣ ⌊q⌋ then ⌊q⌋ else ⌊q⌋ + 1

/-- Python's `round(x, 2)` (src/app.py line 115), as exact
round-half-to-even at two decimal places. -/
def pyround2 (q : ℚ) : ℚ := (roundHalfEvenInt (q * 100) : ℚ) / 100

/-- The accumulation loop of calculate_sgpa (src/app.py lines 106-113):
left fold over subject_cols of (total_ci_gi, total_credits). -/
def sgpaAcc (marks : ℕ → ℚ) : ℕ × ℕ :=
  subject_cols.foldl
    (fun acc sub => (acc.1 + CREDITS sub * gpOf (marks sub), acc.2 + CREDITS sub))
    (0, 0)

/-- calculate_sgpa (src/app.py lines 105-115): the credit-weighted mean
of grade points, rounded to two decimals.  A student is represented by
the function from subject code to (normalized) mark. -/
def calculate_sgpa (marks : ℕ → ℚ) : ℚ :=
  pyround2 (((sgpaAcc marks).1 : ℚ) / ((sgpaAcc marks).2 : ℚ))

/-- The list of the 11 `{col}_GP` entries of one row (src/app.py line 124). -/
def gpColumns (marks : ℕ → ℚ) : List ℕ :=
  subject_cols.map fun sub => gpOf (marks sub)

/-- The row minimum `.min(axis=1)` over the GP columns (src/app.py line 125).
The list is a fixed nonempty 11-element list, so the default never fires. -/
def minGP (marks : ℕ → ℚ) : ℕ := (gpColumns marks).min?.getD 0

/-- The Result column (src/app.py lines 124-126): PASS when the minimum
grade point is at least 4, FAIL otherwise. -/
def resultOf (marks : ℕ → ℚ) : String :=
  if minGP marks ≥ 4 then "PASS" else "FAIL"

/-- The Rank column (src/app.py line 131): pandas
`rank(ascending=False, method="dense")` assigns to a value the number of
distinct column values greater than or equal to it. -/
def dfRank (sgpas : List ℚ) (x : ℚ) : ℕ :=
  (sgpas.toFinset.filter fun v => x ≤ v).card

/-- One input row of the spreadsheet after mark normalization. -/
structure Row where
  rollNo : String
  name : String
  marks : ℕ → ℚ

/-- One row of the enriched table: the per-row derived columns
(src/app.py lines 96-126). -/
structure Enriched where
  rollNo : String
  name : String
  marks : ℕ → ℚ
  grade : ℕ → String
  gradePoint : ℕ → ℕ
  sgpa : ℚ
  cgpa : ℚ
  result : String

/-- The per-row part of the pipeline: grades, grade points, SGPA, CGPA
(a copy of SGPA, src/app.py line 119) and Result for one student. -/
def processRow (r : Row) : Enriched :=
  { rollNo := r.rollNo
    name := r.name
    marks := r.marks
    grade := fun sub => gradeOf (r.marks sub)
    gradePoint := fun sub => gpOf (r.marks sub)
    sgpa := calculate_sgpa r.marks
    cgpa := calculate_sgpa r.marks
    result := resultOf r.marks }

/-- The whole-table pipeline: every per-row column plus the dense Rank
column, which reads the SGPA column of the whole cohort. -/
def processCohort (rows : List Row) : List (Enriched × ℕ) :=
  (rows.map processRow).map fun e =>
    (e, dfRank ((rows.map processRow).map Enriched.sgpa) e.sgpa)

/-- The sort key of the overall topper list (src/app.py lines 204-207):
SGPA descending, then Name ascending.  This is the non-strict
lexicographic order the sorted output satisfies. -/
def topperLe (a b : Enriched) : Bool :=
  decide (b.sgpa < a.sgpa ∨ (a.sgpa = b.sgpa ∧ a.name ≤ b.name))

/-- topper_df (src/app.py lines 204-207): the enriched table sorted by
(SGPA descending, Name ascending). -/
def topper_df (rows : List Row) : List Enriched :=
  (rows.map processRow).mergeSort topperLe

/-- The Overall Rank column (src/app.py line 209): position in the
sorted table plus one. -/
def overallRankColumn (rows : List Row) : List ℕ :=
  (topper_df rows).enum.map fun p => p.1 + 1

example : gpOf 90 = 10 := by norm_num [gpOf, grade_and_point]
example : gpOf (39.9 : ℚ) = 0 := by norm_num [gpOf, grade_and_point]
example : pyround2 (100 / 24) = 417 / 100 := by
  norm_num [pyround2, roundHalfEvenInt]

/-! ## Facts about the grade table -/

lemma grade_and_point_cases (m : ℚ) :
    grade_and_point m = ("O", 10) ∨ grade_and_point m = ("A+", 9) ∨
    grade_and_point m = ("A", 8) ∨ grade_and_point m = ("B+", 7) ∨
    grade_and_point m = ("B", 6) ∨ grade_and_point m = ("C", 5) ∨
    grade_and_point m = ("P", 4) ∨ grade_and_point m = ("F", 0) := by
  unfold grade_and_point
  split_ifs <;> simp

lemma gpOf_le_ten (m : ℚ) : gpOf m ≤ 10 := by
  unfold gpOf grade_and_point
  split_ifs <;> norm_num

lemma gpOf_zero_or_four_le (m : ℚ) : gpOf m = 0 ∨ 4 ≤ gpOf m := by
  unfold gpOf grade_and_point
  split_ifs <;> norm_num

lemma gpOf_eq_ten_iff (m : ℚ) : gpOf m = 10 ↔ 90 ≤ m := by
  unfold gpOf grade_and_point
  split_ifs with h <;> simp_all

lemma gpOf_le_nine_of_lt (m : ℚ) (h : m < 90) : gpOf m ≤ 9 := by
  unfold gpOf grade_and_point
  split_ifs <;> (try norm_num) <;> linarith

/-- C2: grade_and_point is a total function realizing the descending
threshold table with lower-edge-inclusive boundaries, and in particular
grade_and_point 90 = (O, 10), grade_and_point 40 = (P, 4), and
grade_and_point 39.9 = (F, 0). -/
theorem grade_and_point_bands :
    (∀ m : ℚ,
      (90 ≤ m → grade_and_point m = ("O", 10)) ∧
      (75 ≤ m ∧ m < 90 → grade_and_point m = ("A+", 9)) ∧
      (65 ≤ m ∧ m < 75 → grade_and_point m = ("A", 8)) ∧
      (55 ≤ m ∧ m < 65 → grade_and_point m = ("B+", 7)) ∧
      (50 ≤ m ∧ m < 55 → grade_and_point m = ("B", 6)) ∧
      (45 ≤ m ∧ m < 50 → grade_and_point m = ("C", 5)) ∧
      (40 ≤ m ∧ m < 45 → grade_and_point m = ("P", 4)) ∧
      (m < 40 → grade_and_point m = ("F", 0))) ∧
    grade_and_point 90 = ("O", 10) ∧
    grade_and_point 40 = ("P", 4) ∧
    grade_and_point (39.9 : ℚ) = ("F", 0) := by
  refine ⟨fun m => ?_, by norm_num [grade_and_point], by norm_num [grade_and_point],
    by norm_num [grade_and_point]⟩
  unfold grade_and_point
  refine ⟨fun h => ?_, fun h => ?_, fun h => ?_, fun h => ?_, fun h => ?_, fun h => ?_,
    fun h => ?_, fun h => ?_⟩ <;>
    split_ifs with h1 h2 h3 h4 h5 h6 h7 <;>
    first
      | rfl
      | (exfalso; obtain ⟨ha, hb⟩ := h; linarith)
      | (exfalso; linarith)

/-- Witness for C2 at marks 67, in the band giving grade A. -/
theorem grade_and_point_bands_witness :
    grade_and_point (67 : ℚ) = ("A", 8) :=
  (grade_and_point_bands.1 67).2.2.1 ⟨by norm_num, by norm_num⟩

set_option maxHeartbeats 1000000 in
/-- C8: the grade point is monotone in the marks. -/
theorem gpOf_monotone (m1 m2 : ℚ) (h : m1 ≤ m2) : gpOf m1 ≤ gpOf m2 := by
  unfold gpOf grade_and_point
  split_ifs <;> first | decide | (exfalso; linarith)

/-- Witness for C8 at the pair 55 ≤ 83. -/
theorem gpOf_monotone_witness : gpOf 55 ≤ gpOf 83 :=
  gpOf_monotone 55 83 (by norm_num)

/-- C9: grade_and_point always returns one of the eight fixed
(grade, point) pairs; the grade is F exactly when the point is 0; the
point is never 1, 2 or 3; and two marks get the same grade exactly when
they get the same point. -/
theorem grade_and_point_fixed_pairs :
    ∀ m : ℚ,
      grade_and_point m ∈
        [("O", 10), ("A+", 9), ("A", 8), ("B+", 7),
         ("B", 6), ("C", 5), ("P", 4), ("F", 0)] ∧
      ((grade_and_point m).1 = "F" ↔ (grade_and_point m).2 = 0) ∧
      (grade_and_point m).2 ≠ 1 ∧ (grade_and_point m).2 ≠ 2 ∧
      (grade_and_point m).2 ≠ 3 ∧
      (∀ m' : ℚ,
        ((grade_and_point m).1 = (grade_and_point m').1 ↔
          (grade_and_point m).2 = (grade_and_point m').2)) := by
  intro m
  rcases grade_and_point_cases m with h | h | h | h | h | h | h | h <;>
    rw [h] <;>
    refine ⟨by decide, by decide, by decide, by decide, by decide, fun m' => ?_⟩ <;>
    rcases grade_and_point_cases m' with h2 | h2 | h2 | h2 | h2 | h2 | h2 | h2 <;>
    rw [h2] <;> decide

/-! ## Facts about the Result column -/

lemma gpColumns_ne_nil (marks : ℕ → ℚ) : gpColumns marks ≠ [] := by
  simp [gpColumns, subject_cols]

lemma minGP_spec (marks : ℕ → ℚ) :
    minGP marks ∈ gpColumns marks ∧ ∀ b ∈ gpColumns marks, minGP marks ≤ b := by
  have h : (gpColumns marks).min? = some (minGP marks) := by
    cases hm : (gpColumns marks).min? with
    | none => exact absurd (List.min?_eq_none_iff.mp hm) (gpColumns_ne_nil marks)
    | some a => simp [minGP, hm]
  rw [List.min?_eq_some_iff'] at h
  exact h

/-- C3: Result is FAIL exactly when the minimum grade point over the 11
subjects is below 4, equivalently exactly when some subject has grade
point 0, and Result is PASS exactly when every subject has grade point
at least 4 — a characterization in the marks of the one row only, so
Result does not depend on the SGPA value or on any other student. -/
theorem result_characterization (marks : ℕ → ℚ) :
    (resultOf marks = "FAIL" ↔ minGP marks < 4) ∧
    (resultOf marks = "FAIL" ↔ ∃ sub ∈ subject_cols, gpOf (marks sub) = 0) ∧
    (resultOf marks = "PASS" ↔ ∀ sub ∈ subject_cols, 4 ≤ gpOf (marks sub)) := by
  obtain ⟨hmem, hle⟩ := minGP_spec marks
  have hPF : ("PASS" : String) ≠ "FAIL" := by decide
  have hFP : ("FAIL" : String) ≠ "PASS" := by decide
  have hzero : minGP marks < 4 ↔ ∃ sub ∈ subject_cols, gpOf (marks sub) = 0 := by
    constructor
    · intro hlt
      obtain ⟨sub, hsub, heq⟩ := List.mem_map.mp hmem
      rcases gpOf_zero_or_four_le (marks sub) with h0 | h4
      · exact ⟨sub, hsub, h0⟩
      · omega
    · rintro ⟨sub, hsub, h0⟩
      have : minGP marks ≤ gpOf (marks sub) :=
        hle _ (List.mem_map.mpr ⟨sub, hsub, rfl⟩)
      omega
  have hall : 4 ≤ minGP marks ↔ ∀ sub ∈ subject_cols, 4 ≤ gpOf (marks sub) := by
    constructor
    · intro h4 sub hsub
      exact le_trans h4 (hle _ (List.mem_map.mpr ⟨sub, hsub, rfl⟩))
    · intro h4
      obtain ⟨sub, hsub, heq⟩ := List.mem_map.mp hmem
      rw [← heq]
      exact h4 sub hsub
  have h1 : resultOf marks = "FAIL" ↔ minGP marks < 4 := by
    unfold resultOf
    split_ifs with h
    · exact iff_of_false hPF (by omega)
    · exact iff_of_true rfl (by omega)
  have h3 : resultOf marks = "PASS" ↔ 4 ≤ minGP marks := by
    unfold resultOf
    split_ifs with h
    · exact iff_of_true rfl h
    · exact iff_of_false hFP h
  exact ⟨h1, h1.trans hzero, h3.trans hall⟩

/-- Witness for C3: C3 is hypothesis-free over its quantifier, but we
record the two characterizations evaluated at a concrete all-50 row. -/
theorem result_characterization_witness :
    resultOf (fun _ => (50 : ℚ)) = "PASS" := by
  have h := (result_characterization fun _ => (50 : ℚ)).2.2
  refine h.mpr fun sub hsub => ?_
  have : gpOf (50 : ℚ) = 6 := by norm_num [gpOf, grade_and_point]
  omega

/-! ## The SGPA contract -/

lemma sgpaAcc_eq (marks : ℕ → ℚ) :
    sgpaAcc marks =
      ((subject_cols.map fun sub => CREDITS sub * gpOf (marks sub)).sum, 24) := by
  simp [sgpaAcc, subject_cols, CREDITS]
  ring

/-- C1: calculate_sgpa is the two-decimal rounding of the sum of
credit times grade point over the 11 fixed subjects, divided by the
fixed total credit sum 24 (the sum of the CREDITS table), which is
nonzero. -/
theorem calculate_sgpa_contract (marks : ℕ → ℚ) :
    calculate_sgpa marks =
      pyround2
        ((((subject_cols.map fun sub => CREDITS sub * gpOf (marks sub)).sum : ℕ) : ℚ) / 24) ∧
    (sgpaAcc marks).2 = 24 ∧
    (subject_cols.map CREDITS).sum = 24 ∧
    ((sgpaAcc marks).2 : ℚ) ≠ 0 := by
  have h := sgpaAcc_eq marks
  refine ⟨?_, by rw [h], by simp [subject_cols, CREDITS], by rw [h]; norm_num⟩
  unfold calculate_sgpa
  rw [h]
  norm_num

/-! ## Mark normalization -/

/-- C5 as stated is false on the code: an out-of-range numeric source
cell is kept as is, not normalized to 0.  At the concrete raw numeric
cell 150 (outside the nominal 0-100 range) normalization returns 150. -/
theorem normalizeCell_out_of_range_kept :
    (100 : ℚ) < 150 ∧ normalizeCell (RawMark.num 150) = 150 ∧ (150 : ℚ) ≠ 0 :=
  ⟨by norm_num, rfl, by norm_num⟩

/-- C5 amended: normalization is total and error-free; non-numeric text
and missing cells become 0, and every numeric cell keeps its value,
including out-of-range ones. -/
theorem normalizeCell_amended :
    (∀ s : String, normalizeCell (RawMark.text s) = 0) ∧
    normalizeCell RawMark.missing = 0 ∧
    (∀ q : ℚ, normalizeCell (RawMark.num q) = q) :=
  ⟨fun _ => rfl, rfl, fun _ => rfl⟩

/-! ## Per-row noninterference -/

/-- C10: every per-row output column (grades, grade points, SGPA, CGPA,
Result — the whole enriched row, the first component of the pipeline
output) is a function of that student's own input row alone: if two
cohorts agree on row i, the enriched row i agrees, whatever the other
rows are.  Only the Rank component reads the rest of the cohort. -/
theorem per_row_noninterference (rows1 rows2 : List Row) (i : ℕ)
    (h : rows1[i]? = rows2[i]?) :
    ((processCohort rows1)[i]?).map Prod.fst =
      ((processCohort rows2)[i]?).map Prod.fst := by
  simp only [processCohort, List.getElem?_map, Option.map_map, h]
  cases rows2[i]? with
  | none => rfl
  | some r => rfl

/-- Witness for C10: two cohorts sharing row 0 but of different sizes
and different other rows give the same enriched row 0. -/
theorem per_row_noninterference_witness :
    ((processCohort [⟨"1", "Asha", fun _ => 50⟩])[0]?).map Prod.fst =
      ((processCohort
        [⟨"1", "Asha", fun _ => 50⟩, ⟨"2", "Zoya", fun _ => 90⟩])[0]?).map Prod.fst :=
  per_row_noninterference _ _ 0 rfl

/-! ## Dense rank -/

/-- C4: for a cohort member x, the dense Rank equals 1 plus the number
of distinct SGPA values strictly greater than x; the rank is a function
of the SGPA value alone (so SGPA ties share it, and the Result column
plays no part), the maximal SGPA gets rank 1, and there are no gaps:
every rank of at least 2 is the successor of the rank of some other
cohort member. -/
theorem dfRank_dense (sgpas : List ℚ) (x : ℚ) (hx : x ∈ sgpas) :
    dfRank sgpas x = 1 + (sgpas.toFinset.filter fun v => x < v).card ∧
    ((∀ y ∈ sgpas, y ≤ x) → dfRank sgpas x = 1) ∧
    (2 ≤ dfRank sgpas x → ∃ y ∈ sgpas, dfRank sgpas y + 1 = dfRank sgpas x) := by
  have hxF : x ∈ sgpas.toFinset := List.mem_toFinset.mpr hx
  have hsplit : sgpas.toFinset.filter (fun v => x ≤ v) =
      insert x (sgpas.toFinset.filter fun v => x < v) := by
    ext v
    simp only [Finset.mem_filter, Finset.mem_insert]
    constructor
    · rintro ⟨hv, hle⟩
      rcases hle.lt_or_eq with hlt | heq
      · exact Or.inr ⟨hv, hlt⟩
      · exact Or.inl heq.symm
    · rintro (rfl | ⟨hv, hlt⟩)
      · exact ⟨hxF, le_refl _⟩
      · exact ⟨hv, le_of_lt hlt⟩
  have hnot : x ∉ sgpas.toFinset.filter fun v => x < v := by simp
  have hcard : dfRank sgpas x = 1 + (sgpas.toFinset.filter fun v => x < v).card := by
    rw [dfRank, hsplit, Finset.card_insert_of_not_mem hnot]
    omega
  refine ⟨hcard, ?_, ?_⟩
  · intro hmax
    have hsingle : sgpas.toFinset.filter (fun v => x ≤ v) = {x} := by
      ext v
      simp only [Finset.mem_filter, Finset.mem_singleton, List.mem_toFinset]
      constructor
      · rintro ⟨hv, hle⟩
        exact le_antisymm (hmax v hv) hle
      · rintro rfl
        exact ⟨hx, le_refl _⟩
    rw [dfRank, hsingle, Finset.card_singleton]
  · intro h2
    have hpos : 0 < (sgpas.toFinset.filter fun v => x < v).card := by omega
    have hne : (sgpas.toFinset.filter fun v => x < v).Nonempty :=
      Finset.card_pos.mp hpos
    have hyS : (sgpas.toFinset.filter fun v => x < v).min' hne ∈
        sgpas.toFinset.filter fun v => x < v := Finset.min'_mem _ hne
    have hxy : x < (sgpas.toFinset.filter fun v => x < v).min' hne :=
      (Finset.mem_filter.mp hyS).2
    have hymem : (sgpas.toFinset.filter fun v => x < v).min' hne ∈ sgpas :=
      List.mem_toFinset.mp (Finset.mem_filter.mp hyS).1
    refine ⟨(sgpas.toFinset.filter fun v => x < v).min' hne, hymem, ?_⟩
    have hfy : sgpas.toFinset.filter
        (fun v => (sgpas.toFinset.filter fun v => x < v).min' hne ≤ v) =
        sgpas.toFinset.filter fun v => x < v := by
      ext v
      simp only [Finset.mem_filter]
      constructor
      · rintro ⟨hv, hle⟩
        exact ⟨hv, lt_of_lt_of_le hxy hle⟩
      · rintro ⟨hv, hlt⟩
        exact ⟨hv, Finset.min'_le _ v (Finset.mem_filter.mpr ⟨hv, hlt⟩)⟩
    rw [dfRank, hfy, hcard]
    omega

/-- Witness for C4 on the SGPA column [9.1, 8.5, 8.5, 7] at value 8.5. -/
theorem dfRank_dense_witness :
    dfRank [(9.1 : ℚ), 8.5, 8.5, 7] 8.5 =
      1 + (([(9.1 : ℚ), 8.5, 8.5, 7].toFinset.filter fun v => (8.5 : ℚ) < v).card) ∧
    ((∀ y ∈ [(9.1 : ℚ), 8.5, 8.5, 7], y ≤ 8.5) → dfRank [(9.1 : ℚ), 8.5, 8.5, 7] 8.5 = 1) ∧
    (2 ≤ dfRank [(9.1 : ℚ), 8.5, 8.5, 7] 8.5 →
      ∃ y ∈ [(9.1 : ℚ), 8.5, 8.5, 7],
        dfRank [(9.1 : ℚ), 8.5, 8.5, 7] y + 1 = dfRank [(9.1 : ℚ), 8.5, 8.5, 7] 8.5) :=
  dfRank_dense [(9.1 : ℚ), 8.5, 8.5, 7] 8.5 (by norm_num)

/-! ## Overall leaderboard -/

lemma topperLe_total (a b : Enriched) : topperLe a b || topperLe b a := by
  simp only [topperLe, Bool.or_eq_true, decide_eq_true_eq]
  rcases lt_trichotomy a.sgpa b.sgpa with h | h | h
  · exact Or.inr (Or.inl h)
  · rcases le_total a.name b.name with hn | hn
    · exact Or.inl (Or.inr ⟨h, hn⟩)
    · exact Or.inr (Or.inr ⟨h.symm, hn⟩)
  · exact Or.inl (Or.inl h)

lemma topperLe_trans (a b c : Enriched) (hab : topperLe a b = true)
    (hbc : topperLe b c = true) : topperLe a c = true := by
  simp only [topperLe, decide_eq_true_eq] at hab hbc ⊢
  rcases hab with h1 | ⟨h1, hn1⟩
  · rcases hbc with h2 | ⟨h2, hn2⟩
    · exact Or.inl (h2.trans h1)
    · exact Or.inl (lt_of_eq_of_lt h2.symm h1)
  · rcases hbc with h2 | ⟨h2, hn2⟩
    · exact Or.inl (lt_of_lt_of_eq h2 h1.symm)
    · exact Or.inr ⟨h1.trans h2, hn1.trans hn2⟩

lemma enum_map_succ (l : List Enriched) :
    l.enum.map (fun p => p.1 + 1) = List.range' 1 l.length := by
  have h1 : l.enum.map (fun p => p.1 + 1) = (l.enum.map Prod.fst).map (· + 1) := by
    rw [List.map_map]
    rfl
  rw [h1, List.enum_map_fst, List.range'_eq_map_range]
  exact List.map_congr_left fun a _ => Nat.add_comm a 1

/-- C6: the overall topper list is a permutation of the enriched cohort
that is sorted by (SGPA descending, Name ascending), and the Overall
Rank column is exactly the sequence 1, 2, ..., N: a duplicate-free
positional ranking with no merged ties, distinct from the dense Rank
column. -/
theorem overall_leaderboard (rows : List Row) :
    (topper_df rows).Perm (rows.map processRow) ∧
    List.Pairwise
      (fun a b => b.sgpa < a.sgpa ∨ (a.sgpa = b.sgpa ∧ a.name ≤ b.name))
      (topper_df rows) ∧
    overallRankColumn rows = List.range' 1 rows.length ∧
    (overallRankColumn rows).Nodup := by
  have hperm : (topper_df rows).Perm (rows.map processRow) :=
    List.mergeSort_perm (rows.map processRow) topperLe
  have hlen : (topper_df rows).length = rows.length := by
    rw [hperm.length_eq, List.length_map]
  have hsorted :
      List.Pairwise (fun a b => topperLe a b = true) (topper_df rows) :=
    List.sorted_mergeSort topperLe_trans topperLe_total (rows.map processRow)
  refine ⟨hperm, ?_, ?_, ?_⟩
  · refine hsorted.imp fun h => ?_
    simpa only [topperLe, decide_eq_true_eq] using h
  · rw [overallRankColumn, enum_map_succ, hlen]
  · rw [overallRankColumn, enum_map_succ]
    exact List.nodup_range' _ _

/-! ## SGPA bounds -/

lemma floor_le_roundHalfEvenInt (q : ℚ) : ⌊q⌋ ≤ roundHalfEvenInt q := by
  unfold roundHalfEvenInt
  split_ifs <;> omega

lemma roundHalfEvenInt_le_ceil (q : ℚ) : roundHalfEvenInt q ≤ ⌈q⌉ := by
  have hceil : q ≤ (⌈q⌉ : ℚ) := Int.le_ceil q
  unfold roundHalfEvenInt
  split_ifs with hA hB hC
  · exact Int.floor_le_ceil q
  · have hlt : (⌊q⌋ : ℚ) < q := by push_neg at hA; linarith
    have h2 : ⌊q⌋ < ⌈q⌉ := by exact_mod_cast lt_of_lt_of_le hlt hceil
    omega
  · exact Int.floor_le_ceil q
  · have hlt : (⌊q⌋ : ℚ) < q := by push_neg at hA; linarith
    have h2 : ⌊q⌋ < ⌈q⌉ := by exact_mod_cast lt_of_lt_of_le hlt hceil
    omega

lemma roundHalfEvenInt_intCast (n : ℤ) : roundHalfEvenInt (n : ℚ) = n := by
  unfold roundHalfEvenInt
  rw [Int.floor_intCast]
  norm_num

lemma pyround2_nonneg (q : ℚ) (h : 0 ≤ q) : 0 ≤ pyround2 q := by
  unfold pyround2
  have h1 : (0:ℤ) ≤ ⌊q * 100⌋ := Int.floor_nonneg.mpr (by positivity)
  have h2 := floor_le_roundHalfEvenInt (q * 100)
  have h3 : (0:ℚ) ≤ (roundHalfEvenInt (q * 100) : ℚ) := by
    exact_mod_cast le_trans h1 h2
  exact div_nonneg h3 (by norm_num)

lemma pyround2_le_hundredths (q : ℚ) (k : ℤ) (h : q * 100 ≤ (k : ℚ)) :
    pyround2 q ≤ (k : ℚ) / 100 := by
  unfold pyround2
  have h1 := roundHalfEvenInt_le_ceil (q * 100)
  have h2 : ⌈q * 100⌉ ≤ k := Int.ceil_le.mpr h
  have h3 : (roundHalfEvenInt (q * 100) : ℚ) ≤ (k : ℚ) := by
    exact_mod_cast le_trans h1 h2
  linarith

lemma pyround2_ten : pyround2 10 = 10 := by
  have h : ((10:ℚ) * 100) = ((1000 : ℤ) : ℚ) := by norm_num
  unfold pyround2
  rw [h, roundHalfEvenInt_intCast]
  norm_num

lemma sgpaAcc_fst_le_240 (marks : ℕ → ℚ) : (sgpaAcc marks).1 ≤ 240 := by
  have h1 := gpOf_le_ten (marks 101)
  have h2 := gpOf_le_ten (marks 103)
  have h3 := gpOf_le_ten (marks 105)
  have h4 := gpOf_le_ten (marks 107)
  have h5 := gpOf_le_ten (marks 109)
  have h6 := gpOf_le_ten (marks 161)
  have h7 := gpOf_le_ten (marks 163)
  have h8 := gpOf_le_ten (marks 165)
  have h9 := gpOf_le_ten (marks 167)
  have h10 := gpOf_le_ten (marks 169)
  have h11 := gpOf_le_ten (marks 171)
  rw [sgpaAcc_eq]
  simp only [subject_cols, List.map_cons, List.map_nil, List.sum_cons, List.sum_nil]
  norm_num [CREDITS]
  omega

lemma sgpaAcc_fst_eq_240_iff (marks : ℕ → ℚ) :
    (sgpaAcc marks).1 = 240 ↔ ∀ sub ∈ subject_cols, 90 ≤ marks sub := by
  have h1 := gpOf_le_ten (marks 101)
  have h2 := gpOf_le_ten (marks 103)
  have h3 := gpOf_le_ten (marks 105)
  have h4 := gpOf_le_ten (marks 107)
  have h5 := gpOf_le_ten (marks 109)
  have h6 := gpOf_le_ten (marks 161)
  have h7 := gpOf_le_ten (marks 163)
  have h8 := gpOf_le_ten (marks 165)
  have h9 := gpOf_le_ten (marks 167)
  have h10 := gpOf_le_ten (marks 169)
  have h11 := gpOf_le_ten (marks 171)
  rw [sgpaAcc_eq]
  simp only [subject_cols, List.map_cons, List.map_nil, List.sum_cons, List.sum_nil,
    List.mem_cons, List.not_mem_nil, or_false, forall_eq_or_imp, forall_eq]
  rw [← gpOf_eq_ten_iff (marks 101), ← gpOf_eq_ten_iff (marks 103),
    ← gpOf_eq_ten_iff (marks 105), ← gpOf_eq_ten_iff (marks 107),
    ← gpOf_eq_ten_iff (marks 109), ← gpOf_eq_ten_iff (marks 161),
    ← gpOf_eq_ten_iff (marks 163), ← gpOf_eq_ten_iff (marks 165),
    ← gpOf_eq_ten_iff (marks 167), ← gpOf_eq_ten_iff (marks 169),
    ← gpOf_eq_ten_iff (marks 171)]
  norm_num [CREDITS]
  omega

/-- C7: every student's SGPA lies between 0 and 10, and it equals 10
exactly when every one of the 11 (normalized) subject marks is at
least 90. -/
theorem sgpa_bounds (marks : ℕ → ℚ) :
    0 ≤ calculate_sgpa marks ∧ calculate_sgpa marks ≤ 10 ∧
    (calculate_sgpa marks = 10 ↔ ∀ sub ∈ subject_cols, 90 ≤ marks sub) := by
  have hle := sgpaAcc_fst_le_240 marks
  have hiff := sgpaAcc_fst_eq_240_iff marks
  have hc24 : ((sgpaAcc marks).2 : ℚ) = 24 := by
    rw [sgpaAcc_eq]
    norm_num
  have hq : calculate_sgpa marks = pyround2 (((sgpaAcc marks).1 : ℚ) / 24) := by
    unfold calculate_sgpa
    rw [hc24]
  have hcast : ((sgpaAcc marks).1 : ℚ) ≤ 240 := by exact_mod_cast hle
  refine ⟨?_, ?_, ?_⟩
  · rw [hq]
    exact pyround2_nonneg _ (by positivity)
  · rw [hq]
    have hb : (((sgpaAcc marks).1 : ℚ) / 24) * 100 ≤ ((1000 : ℤ) : ℚ) := by
      push_cast
      linarith
    have := pyround2_le_hundredths _ 1000 hb
    calc pyround2 (((sgpaAcc marks).1 : ℚ) / 24) ≤ ((1000 : ℤ) : ℚ) / 100 := this
      _ = 10 := by norm_num
  · constructor
    · intro hten
      by_contra hnot
      have hne : (sgpaAcc marks).1 ≠ 240 := fun h240 => hnot (hiff.mp h240)
      have h239 : (sgpaAcc marks).1 ≤ 239 := by omega
      have hcast239 : ((sgpaAcc marks).1 : ℚ) ≤ 239 := by exact_mod_cast h239
      have hb : (((sgpaAcc marks).1 : ℚ) / 24) * 100 ≤ ((996 : ℤ) : ℚ) := by
        push_cast
        linarith
      have hsmall := pyround2_le_hundredths _ 996 hb
      rw [hq] at hten
      rw [hten] at hsmall
      norm_num at hsmall
    · intro hall
      have h240 : (sgpaAcc marks).1 = 240 := hiff.mpr hall
      rw [hq, h240]
      have : ((240 : ℕ) : ℚ) / 24 = 10 := by norm_num
      rw [this, pyround2_ten]

/-- Witness for C7 at the all-95 row: bounds and the iff instantiated. -/
theorem sgpa_bounds_witness :
    0 ≤ calculate_sgpa (fun _ => (95 : ℚ)) ∧
    calculate_sgpa (fun _ => (95 : ℚ)) ≤ 10 ∧
    (calculate_sgpa (fun _ => (95 : ℚ)) = 10 ↔
      ∀ sub ∈ subject_cols, 90 ≤ (fun _ => (95 : ℚ)) sub) :=
  sgpa_bounds fun _ => (95 : ℚ)
